import Mathlib

/-!
Shallow embedding of `src/tethne/persistence/psql/paper.py`: the `SQLPapers`
container, a list-like store of `Paper` records backed by two PostgreSQL
tables (a primary table and a structurally identical `_citations` sibling).

Modelling decisions, all taken from the source file:

* A table is an ordered list of rows plus the state of the `serial` counter
  backing the `id` column (`nextId`, starting at 1 as Postgres sequences do).
  A `SELECT` without `ORDER BY` returns rows in list order; `fetchone` on an
  empty result set returns `None` (psycopg2 raises `ProgrammingError` only
  when no result set exists at all, not when the result set is empty).
* The only constraints that can fire on `INSERT` are the five `UNIQUE`
  natural-key columns of `PAPER_TABLE` (uri, doi, pmid, wosid, eid); a
  violation is checked in schema order and the resulting `IntegrityError`
  names the violating column (psycopg2 exposes it in the message via
  `Key (col)=(val)`, which `append` extracts with a regular expression; for a
  unique violation that pattern always matches, so the violating column is
  carried on the error value directly).  A failed `INSERT` still consumes a
  sequence value, so `nextId` advances even on violation.
* `commit`/cursor mechanics have no observable effect beyond the table
  states modelled here and are therefore not represented.
-/

namespace Tethne

/-- Non-`citations`, non-`id` columns of `PAPER_TABLE` (source lines 11-35),
in schema order.  The serial `id` column lives on `Row`, and the
`citations integer[]` column is kept separate because rows store identifier
lists there while `Paper` objects hold nested records. -/
structure PaperFields where
  aulast : Option (List String) := none
  auinit : Option (List String) := none
  auuri : Option (List String) := none
  institutions : Option (List (List String)) := none
  atitle : Option String := none
  jtitle : Option String := none
  volume : Option String := none
  issue : Option String := none
  spage : Option String := none
  epage : Option String := none
  date : Option Int := none
  ayjid : Option String := none
  uri : Option String := none
  doi : Option String := none
  pmid : Option String := none
  wosid : Option String := none
  eid : Option String := none
  abstract : Option String := none
  contents : Option String := none
  topics : Option String := none
  accession : Option String := none
deriving DecidableEq

/-- The five `UNIQUE` columns of the schema (natural keys). -/
inductive NatKey where
  | uri
  | doi
  | pmid
  | wosid
  | eid
deriving DecidableEq

/-- The unique columns in schema order (the order their indexes are created
by the `CREATE TABLE` statement, hence the order violations are reported). -/
def natKeys : List NatKey :=
  [NatKey.uri, NatKey.doi, NatKey.pmid, NatKey.wosid, NatKey.eid]

/-- Value of a natural-key column. -/
def PaperFields.natGet (f : PaperFields) : NatKey → Option String
  | NatKey.uri => f.uri
  | NatKey.doi => f.doi
  | NatKey.pmid => f.pmid
  | NatKey.wosid => f.wosid
  | NatKey.eid => f.eid

/-- A `Paper` (the external `tethne.classes.Paper` entity): a record of the
table's fields whose distinguished `citations` field holds nested `Paper`
records (or null). -/
structure Paper where
  fields : PaperFields
  citations : Option (List Paper)

/-- A stored row: serial `id`, the plain columns, and the `citations
integer[]` column (null or a list of identifiers into the sibling table). -/
structure Row where
  id : Nat
  fields : PaperFields
  citations : Option (List Nat)
deriving DecidableEq

/-- A table: rows in storage order plus the serial counter for `id`. -/
structure Table where
  rows : List Row
  nextId : Nat
deriving DecidableEq

/-- A freshly created table (`CREATE TABLE`, serial counter at 1). -/
def Table.empty : Table := ⟨[], 1⟩

/-- Does inserting `f` violate the unique constraint on column `k`?
Null values never conflict (SQL `UNIQUE` ignores NULLs). -/
def keyConflict (t : Table) (f : PaperFields) (k : NatKey) : Bool :=
  match f.natGet k with
  | none => false
  | some v => t.rows.any fun r => r.fields.natGet k == some v

/-- The column reported by a unique-constraint violation when `f` is
inserted into `t`: the first conflicting unique column in schema order,
or `none` when the insert succeeds. -/
def violatedKey (t : Table) (f : PaperFields) : Option NatKey :=
  natKeys.find? (keyConflict t f)

/-- Result of executing one `INSERT ... RETURNING id` (source line 56):
either the new table state and the generated identifier, or an
`IntegrityError` carrying the violating column.  The sequence value is
consumed in both cases. -/
inductive InsertResult where
  | ok (t : Table) (id : Nat)
  | uniqueViolation (t : Table) (ckey : NatKey)
deriving DecidableEq

/-- Execute `INSERT INTO t (fields, citations) VALUES ... RETURNING id;`. -/
def Table.insert (t : Table) (f : PaperFields) (cits : Option (List Nat)) :
    InsertResult :=
  match violatedKey t f with
  | some k => InsertResult.uniqueViolation ⟨t.rows, t.nextId + 1⟩ k
  | none => InsertResult.ok ⟨t.rows ++ [⟨t.nextId, f, cits⟩], t.nextId + 1⟩ t.nextId

/-- Execute `SELECT * FROM t WHERE id = %s;` followed by `fetchone`:
the first row with that primary key, or `None`. -/
def Table.getRow (t : Table) (id : Nat) : Option Row :=
  t.rows.find? fun r => r.id == id

/-- The in-memory state of a `SQLPapers` object: the primary table, its
`_citations` sibling, and the cached list of row identifiers (the
`list` superclass contents, source lines 88 and 223). -/
structure SQLPapers where
  papersTable : Table
  citTable : Table
  rowIds : List Nat
deriving DecidableEq

/-- Construction with `table=None` (source lines 65-80): create both tables
fresh; `rowIds` starts empty. -/
def SQLPapers.fresh : SQLPapers := ⟨Table.empty, Table.empty, []⟩

/-- Construction with an existing table (source lines 82-88): issue
`SELECT id FROM name;` (note: no `ORDER BY`) and load every returned
identifier, in result order, into `rowIds`.  No DDL is issued and neither
table is modified. -/
def SQLPapers.attach (pt ct : Table) : SQLPapers := ⟨pt, ct, pt.rows.map Row.id⟩

/-- Errors that can escape the read path. -/
inductive ReadError where
  | typeError
  | keyError
  | missingTable
deriving DecidableEq

/-- Decode a row of the *citations* table (`_yield_paper` running on the
sub-store built at source lines 133-134).  Every field is copied onto the
`Paper`; the `id` column has no `Paper` field and is silently skipped
(source lines 137-142).  If the `citations` column is non-null the code
would construct a further `SQLPapers` on `name + '_citations_citations'`,
a table that does not exist, so the `SELECT` in its constructor fails
(`missingTable`). -/
def yieldCitPaper (row : Row) : Except ReadError Paper :=
  match row.citations with
  | none => Except.ok ⟨row.fields, none⟩
  | some _ => Except.error ReadError.missingTable

/-- `__get_by_id` on the citation sub-store (source lines 104-119 against the
`_citations` table).  When no row matches, `fetchone` returns `None` without
raising `ProgrammingError`, so the `KeyError` branch is dead and
`_yield_paper(None)` raises `TypeError` from `len(None)`. -/
def getByIdCit (ct : Table) (id : Nat) : Except ReadError Paper :=
  match ct.getRow id with
  | none => Except.error ReadError.typeError
  | some r => yieldCitPaper r

/-- `_yield_paper` (source lines 121-144) on a row of the primary table:
copy every column onto a fresh `Paper` (skipping `id`); if the `citations`
column is non-null, resolve each stored identifier through the citation
sub-store. -/
def yieldPaper (ct : Table) (row : Row) : Except ReadError Paper :=
  match row.citations with
  | none => Except.ok ⟨row.fields, none⟩
  | some ids => do
      let cits ← ids.mapM (getByIdCit ct)
      Except.ok ⟨row.fields, some cits⟩

/-- `__get_by_id` (source lines 104-119): `SELECT * WHERE id = %s`, then
decode.  As above, a missing row surfaces as `TypeError`, not the intended
`KeyError('No Paper with that ID exists.')`. -/
def SQLPapers.getById (st : SQLPapers) (id : Nat) : Except ReadError Paper :=
  match st.papersTable.getRow id with
  | none => Except.error ReadError.typeError
  | some r => yieldPaper st.citTable r

/-- Errors that can escape `__getitem__`. -/
inductive GetItemError where
  | indexError
  | read (e : ReadError)
deriving DecidableEq

/-- `__getitem__` (source lines 99-102): list indexing first (raising
`IndexError` before any database access when out of range), then resolve
the identifier. -/
def SQLPapers.getItem (st : SQLPapers) (key : Nat) : Except GetItemError Paper :=
  match st.rowIds[key]? with
  | none => Except.error GetItemError.indexError
  | some id => (st.getById id).mapError GetItemError.read

/-- The error raised by `append` (`ValueError('Paper already exists: ...')`,
source line 229, whose wrapped `IntegrityError` names the violating
column). -/
inductive AppendError where
  | duplicatePaper (k : NatKey)
deriving DecidableEq

/-- Insert one citation `Paper` into the citation table (source lines
167-203): build an insert of every field except `citations` (so the stored
`citations` column is null).  On success return the generated identifier.
On `IntegrityError`, parse the violating column out of the message (always
present for a unique violation), then `SELECT id ... WHERE col = %s` and
reuse the existing row's identifier; if no column could be parsed the
citation is skipped (`none`). -/
def insertCitation (ct : Table) (c : Paper) : Table × Option Nat :=
  match ct.insert c.fields none with
  | InsertResult.ok t id => (t, some id)
  | InsertResult.uniqueViolation t ckey =>
      match c.fields.natGet ckey with
      | some v =>
          (t, (t.rows.find? fun r => r.fields.natGet ckey == some v).map Row.id)
      | none => (t, none)

/-- The citation loop of `append` (source lines 166-203): process citations
in order, accumulating the identifiers each contributes (skipped citations
contribute nothing). -/
def insertCitations (ct : Table) : List Paper → Table × List Nat
  | [] => (ct, [])
  | c :: cs =>
      let p := insertCitation ct c
      let q := insertCitations p.1 cs
      (q.1, match p.2 with
            | some i => i :: q.2
            | none => q.2)

/-- Phase 1 of `append` (source lines 161-203): if the `citations` field is
null, skip entirely and record null; otherwise run the citation loop and
record the accumulated identifier list. -/
def phase1 (ct : Table) : Option (List Paper) → Table × Option (List Nat)
  | none => (ct, none)
  | some cs => ((insertCitations ct cs).1, some (insertCitations ct cs).2)

/-- Phase 2 of `append` (source lines 205-231): insert the record's fields
with the `citations` column set to the phase-1 result.  On success, commit
and push the generated identifier onto `rowIds`.  On a unique violation,
raise `ValueError` when `complain` is set, otherwise pass silently; either
way `rowIds` is untouched. -/
def appendPrimary (st : SQLPapers) (ct : Table) (cits : Option (List Nat))
    (f : PaperFields) (complain : Bool) : SQLPapers × Option AppendError :=
  match st.papersTable.insert f cits with
  | InsertResult.ok pt id => (⟨pt, ct, st.rowIds ++ [id]⟩, none)
  | InsertResult.uniqueViolation pt k =>
      if complain then (⟨pt, ct, st.rowIds⟩, some (AppendError.duplicatePaper k))
      else (⟨pt, ct, st.rowIds⟩, none)

/-- `append` (source lines 153-231), the two phases composed.  The second
component is the error raised, if any. -/
def SQLPapers.append (st : SQLPapers) (obj : Paper) (complain : Bool) :
    SQLPapers × Option AppendError :=
  appendPrimary st (phase1 st.citTable obj.citations).1
    (phase1 st.citTable obj.citations).2 obj.fields complain

/-- `__iter__` (source lines 233-247): one full-table scan, decoding each
row in result order with `_yield_paper`; an error during decoding
propagates out of the generator. -/
def SQLPapers.iterate (st : SQLPapers) : Except ReadError (List Paper) :=
  st.papersTable.rows.mapM (yieldPaper st.citTable)

/-- The possible right-hand sides of `+=`.  `__iadd__` (source lines
146-151) checks `type(other) is Paper` exactly, so any other value — e.g. a
list of `Paper`s, or `None` — falls through. -/
inductive IAddArg where
  | paper (p : Paper)
  | papers (ps : List Paper)
  | pyNone

/-- `__iadd__` (source lines 146-151): delegate to `append` for a single
`Paper`; anything else is ignored and `self` is returned unchanged. -/
def SQLPapers.iadd (st : SQLPapers) (other : IAddArg) :
    SQLPapers × Option AppendError :=
  match other with
  | IAddArg.paper p => st.append p true
  | IAddArg.papers _ => (st, none)
  | IAddArg.pyNone => (st, none)

/-- Iterated `append` with default `complain` (used to state properties
about sequences of appends). -/
def appendAll (st : SQLPapers) : List Paper → SQLPapers
  | [] => st
  | p :: ps => appendAll (st.append p true).1 ps

/-- Does appending `p` to `st` succeed (no unique violation on the primary
insert)?  The primary table is not touched by phase 1, so this is decided
against `st.papersTable`. -/
def appendOk (st : SQLPapers) (p : Paper) : Bool :=
  (violatedKey st.papersTable p.fields).isNone

/-- Every append in the sequence succeeds. -/
def allOk (st : SQLPapers) : List Paper → Bool
  | [] => true
  | p :: ps => appendOk st p && allOk (st.append p true).1 ps

/-- Does `f` carry at least one non-null natural key? -/
def hasNatKey (f : PaperFields) : Bool :=
  natKeys.any fun k => (f.natGet k).isSome

/-- Would inserting `f` conflict with an already-stored record whose fields
are `g`, on some unique column? -/
def keyClash (f g : PaperFields) : Bool :=
  natKeys.any fun k => (f.natGet k).isSome && (f.natGet k == g.natGet k)

/-- Well-formedness of a table, as guaranteed by Postgres itself: every
row's `id` was generated by the serial counter (hence below `nextId`) and
`id` is a primary key (no duplicates). -/
structure TableWF (t : Table) : Prop where
  idsLt : ∀ r ∈ t.rows, r.id < t.nextId
  idsNodup : (t.rows.map Row.id).Nodup

/-- Well-formedness of a store state: both tables are well formed, every
cached row identifier was generated by the primary table's counter, every
row of the citation table has a null `citations` column (they are inserted
that way), and every identifier stored in a primary row's `citations`
column was generated by the citation table's counter. -/
structure SQLPapers.WF (st : SQLPapers) : Prop where
  pt : TableWF st.papersTable
  ct : TableWF st.citTable
  rowIdsLt : ∀ i ∈ st.rowIds, i < st.papersTable.nextId
  citFlat : ∀ r ∈ st.citTable.rows, r.citations = none
  citIdsLt : ∀ r ∈ st.papersTable.rows, ∀ l, r.citations = some l →
    ∀ k ∈ l, k < st.citTable.nextId

/-! Basic characterisations of the unique-constraint check. -/

/-- A unique column conflicts exactly when the incoming value is non-null and
some stored row carries the same value in that column. -/
theorem keyConflict_iff (t : Table) (f : PaperFields) (k : NatKey) :
    keyConflict t f k = true ↔
      ∃ v, f.natGet k = some v ∧ ∃ r ∈ t.rows, r.fields.natGet k = some v := by
  unfold keyConflict
  cases h : f.natGet k with
  | none => simp
  | some v => simp [List.any_eq_true]

/-- No violation is reported exactly when no unique column conflicts. -/
theorem violatedKey_eq_none_iff (t : Table) (f : PaperFields) :
    violatedKey t f = none ↔ ∀ k ∈ natKeys, keyConflict t f k = false := by
  unfold violatedKey
  rw [List.find?_eq_none]
  simp

/-- Inserting into an empty table never violates a unique constraint. -/
theorem violatedKey_empty (f : PaperFields) : violatedKey Table.empty f = none := by
  rw [violatedKey_eq_none_iff]
  intro k _
  unfold keyConflict
  cases f.natGet k <;> simp [Table.empty]

/-- A reported violation pins down a non-null incoming value and a stored row
carrying it. -/
theorem violatedKey_some_val {t : Table} {f : PaperFields} {k : NatKey}
    (hv : violatedKey t f = some k) :
    ∃ v, f.natGet k = some v ∧ ∃ r ∈ t.rows, r.fields.natGet k = some v := by
  unfold violatedKey at hv
  exact (keyConflict_iff t f k).mp (List.find?_some hv)

/-- Successful `INSERT`: the row is appended with the current serial value
and the counter advances. -/
theorem Table.insert_ok {t : Table} {f : PaperFields} (cits : Option (List Nat))
    (hv : violatedKey t f = none) :
    t.insert f cits =
      InsertResult.ok ⟨t.rows ++ [⟨t.nextId, f, cits⟩], t.nextId + 1⟩ t.nextId := by
  unfold Table.insert
  rw [hv]

/-- Failed `INSERT`: rows unchanged, serial value still consumed. -/
theorem Table.insert_dup {t : Table} {f : PaperFields} {k : NatKey}
    (cits : Option (List Nat)) (hv : violatedKey t f = some k) :
    t.insert f cits = InsertResult.uniqueViolation ⟨t.rows, t.nextId + 1⟩ k := by
  unfold Table.insert
  rw [hv]

/-- Phase 2 on a non-conflicting record: the row is stored, the new
identifier lands at the end of `rowIds`, no error. -/
theorem appendPrimary_ok {st : SQLPapers} {f : PaperFields}
    (ct : Table) (cits : Option (List Nat)) (complain : Bool)
    (hv : violatedKey st.papersTable f = none) :
    appendPrimary st ct cits f complain =
      (⟨⟨st.papersTable.rows ++ [⟨st.papersTable.nextId, f, cits⟩],
          st.papersTable.nextId + 1⟩, ct,
        st.rowIds ++ [st.papersTable.nextId]⟩, none) := by
  unfold appendPrimary
  rw [Table.insert_ok cits hv]

/-- Phase 2 on a duplicate record: rows and `rowIds` unchanged; the error is
raised exactly when `complain` is set. -/
theorem appendPrimary_dup {st : SQLPapers} {f : PaperFields} {k : NatKey}
    (ct : Table) (cits : Option (List Nat)) (complain : Bool)
    (hv : violatedKey st.papersTable f = some k) :
    appendPrimary st ct cits f complain =
      (⟨⟨st.papersTable.rows, st.papersTable.nextId + 1⟩, ct, st.rowIds⟩,
        if complain then some (AppendError.duplicatePaper k) else none) := by
  unfold appendPrimary
  rw [Table.insert_dup cits hv]
  cases complain <;> simp

/-- Citation insert without conflict: the citation's fields are stored with a
null `citations` column and the fresh identifier is returned. -/
theorem insertCitation_ok {ct : Table} {c : Paper}
    (hv : violatedKey ct c.fields = none) :
    insertCitation ct c =
      (⟨ct.rows ++ [⟨ct.nextId, c.fields, none⟩], ct.nextId + 1⟩,
        some ct.nextId) := by
  unfold insertCitation
  rw [Table.insert_ok none hv]

/-- Citation insert hitting a duplicate: the existing row is looked up by the
violating column's value. -/
theorem insertCitation_dup {ct : Table} {c : Paper} {k : NatKey} {v : String}
    (hv : violatedKey ct c.fields = some k) (hval : c.fields.natGet k = some v) :
    insertCitation ct c =
      (⟨ct.rows, ct.nextId + 1⟩,
        (ct.rows.find? fun r => r.fields.natGet k == some v).map Row.id) := by
  unfold insertCitation
  rw [Table.insert_dup none hv]
  simp [hval]

/-- Conflict against a single stored row happens exactly when both records
carry the same non-null value in some unique column. -/
theorem keyConflict_singleton_iff (f g : PaperFields) (i : Nat)
    (cits : Option (List Nat)) (n : Nat) (k : NatKey) :
    keyConflict ⟨[⟨i, g, cits⟩], n⟩ f k = true ↔
      ∃ v, f.natGet k = some v ∧ g.natGet k = some v := by
  rw [keyConflict_iff]
  simp

/-- If `f` and `g` share no non-null unique value, inserting `f` next to a
row carrying `g` succeeds. -/
theorem violatedKey_singleton_of_clash_free {f g : PaperFields}
    (h : keyClash f g = false) (i : Nat) (cits : Option (List Nat)) (n : Nat) :
    violatedKey ⟨[⟨i, g, cits⟩], n⟩ f = none := by
  rw [violatedKey_eq_none_iff]
  intro k hk
  rw [Bool.eq_false_iff]
  intro hc
  obtain ⟨v, hfv, hgv⟩ := (keyConflict_singleton_iff f g i cits n k).mp hc
  have hcl := List.any_eq_false.mp
    (show List.any natKeys
        (fun k => (f.natGet k).isSome && (f.natGet k == g.natGet k)) = false
      from h) k hk
  rw [hfv, hgv] at hcl
  simp at hcl

/-- Re-inserting fields that carry at least one natural key next to a row
with the very same fields always reports a violation, on a column whose
value is non-null. -/
theorem violatedKey_singleton_self {f : PaperFields} (h : hasNatKey f = true)
    (i : Nat) (cits : Option (List Nat)) (n : Nat) :
    ∃ k v, violatedKey ⟨[⟨i, f, cits⟩], n⟩ f = some k ∧ f.natGet k = some v := by
  obtain ⟨k0, hk0, hp⟩ := List.any_eq_true.mp (by simpa [hasNatKey] using h)
  cases hf : violatedKey ⟨[⟨i, f, cits⟩], n⟩ f with
  | none =>
      exfalso
      obtain ⟨v, hv⟩ := Option.isSome_iff_exists.mp hp
      exact absurd ((keyConflict_singleton_iff f f i cits n k0).mpr ⟨v, hv, hv⟩)
        (by simpa using (violatedKey_eq_none_iff _ _).mp hf k0 hk0)
  | some k =>
      obtain ⟨v, hfv, _⟩ := violatedKey_some_val hf
      exact ⟨k, v, rfl, hfv⟩

/-! Read-path lemmas: primary-key lookups and decoding. -/

/-- A primary-key lookup ignores appended rows whose identifiers differ from
the one sought (the counter on the left table is irrelevant). -/
theorem getRow_extend (rows extra : List Row) (n m id : Nat)
    (hextra : ∀ r ∈ extra, ¬ r.id = id) :
    Table.getRow ⟨rows ++ extra, m⟩ id = Table.getRow ⟨rows, n⟩ id := by
  unfold Table.getRow
  rw [List.find?_append]
  have hx : (List.find? (fun r => r.id == id) extra) = none :=
    List.find?_eq_none.mpr fun r hr => by simpa using hextra r hr
  rw [hx, Option.or_none]

/-- Looking up a freshly appended row whose identifier is new finds it. -/
theorem getRow_new (rows : List Row) (m : Nat) (newRow : Row)
    (hold : ∀ r ∈ rows, ¬ r.id = newRow.id) :
    Table.getRow ⟨rows ++ [newRow], m⟩ newRow.id = some newRow := by
  unfold Table.getRow
  rw [List.find?_append,
    List.find?_eq_none.mpr (fun r hr => by simpa using hold r hr),
    Option.none_or, List.find?_cons_of_pos _ (by simp)]

/-- If some row carries the sought identifier, the lookup returns a stored
row (the first such). -/
theorem getRow_of_mem {t : Table} {i : Nat} (h : ∃ r ∈ t.rows, r.id = i) :
    ∃ r, t.getRow i = some r ∧ r ∈ t.rows := by
  cases hf : t.getRow i with
  | none =>
      exfalso
      obtain ⟨r, hr, hid⟩ := h
      unfold Table.getRow at hf
      exact List.find?_eq_none.mp hf r hr (by simp [hid])
  | some r =>
      unfold Table.getRow at hf
      exact ⟨r, rfl, List.mem_of_find?_eq_some hf⟩

/-- With pairwise distinct identifiers (the real table's primary key), the
lookup of a stored row's identifier returns exactly that row. -/
theorem find?_id_self {rows : List Row} (hnd : (rows.map Row.id).Nodup)
    {r : Row} (hr : r ∈ rows) :
    (rows.find? fun x => x.id == r.id) = some r := by
  induction rows with
  | nil => cases hr
  | cons a as ih =>
      rw [List.map_cons, List.nodup_cons] at hnd
      rcases List.mem_cons.mp hr with h | h
      · subst h
        exact List.find?_cons_of_pos _ (by simp)
      · rw [List.find?_cons_of_neg]
        · exact ih hnd.2 h
        · simp only [beq_iff_eq]
          intro he
          exact hnd.1 (he ▸ List.mem_map.mpr ⟨r, h, rfl⟩)

/-- Primary-key lookup of a stored row, packaged for `Table`. -/
theorem getRow_self {t : Table} (hnd : (t.rows.map Row.id).Nodup)
    {r : Row} (hr : r ∈ t.rows) : t.getRow r.id = some r := by
  unfold Table.getRow
  exact find?_id_self hnd hr

/-- Pointwise equal functions give equal `mapM` runs over `Except`. -/
theorem mapM_congr_except {α β ε : Type} {f g : α → Except ε β} :
    ∀ {l : List α}, (∀ a ∈ l, f a = g a) → l.mapM f = l.mapM g := by
  intro l
  induction l with
  | nil => intro _; rfl
  | cons a as ih =>
      intro h
      rw [List.mapM_cons, List.mapM_cons, h a (List.mem_cons_self a as),
        ih fun x hx => h x (List.mem_cons_of_mem a hx)]

/-- If every element maps to a success, the whole `mapM` succeeds, with one
output per input. -/
theorem mapM_ok_of_forall {α β ε : Type} {f : α → Except ε β} :
    ∀ {l : List α}, (∀ a ∈ l, ∃ b, f a = Except.ok b) →
      ∃ bs, l.mapM f = Except.ok bs ∧ bs.length = l.length := by
  intro l
  induction l with
  | nil => exact fun _ => ⟨[], rfl, rfl⟩
  | cons a as ih =>
      intro h
      obtain ⟨b, hb⟩ := h a (List.mem_cons_self a as)
      obtain ⟨bs, hbs, hlen⟩ := ih fun x hx => h x (List.mem_cons_of_mem a hx)
      refine ⟨b :: bs, ?_, by simp [hlen]⟩
      rw [List.mapM_cons, hb, hbs]
      rfl

/-- A successful `mapM` over `Except` produces one output per input. -/
theorem length_of_mapM_ok {α β ε : Type} {f : α → Except ε β} :
    ∀ {l : List α} {bs : List β}, l.mapM f = Except.ok bs →
      bs.length = l.length := by
  intro l
  induction l with
  | nil =>
      intro bs h
      have h2 := Except.ok.inj
        (show (Except.ok [] : Except ε (List β)) = Except.ok bs from h)
      subst h2
      rfl
  | cons a as ih =>
      intro bs h
      rw [List.mapM_cons] at h
      cases hfa : f a with
      | error e =>
          rw [hfa] at h
          exact absurd
            (show (Except.error e : Except ε (List β)) = Except.ok bs from h)
            (by intro hh; cases hh)
      | ok b =>
          rw [hfa] at h
          cases hm : as.mapM f with
          | error e =>
              rw [hm] at h
              exact absurd
                (show (Except.error e : Except ε (List β)) = Except.ok bs from h)
                (by intro hh; cases hh)
          | ok bs2 =>
              rw [hm] at h
              have h2 := Except.ok.inj
                (show (Except.ok (b :: bs2) : Except ε (List β)) = Except.ok bs
                  from h)
              subst h2
              simp [ih hm]

/-! Behaviour of the citation phase. -/

/-- One citation insert: the rows either stay put (duplicate) or grow by one
flat row carrying the current serial value; the serial advances by one;
well-formedness is preserved; and any identifier returned designates a
stored row below the new serial value. -/
theorem insertCitation_spec (ct : Table) (c : Paper) (hwf : TableWF ct) :
    ((insertCitation ct c).1.rows = ct.rows ∨
      (insertCitation ct c).1.rows = ct.rows ++ [⟨ct.nextId, c.fields, none⟩]) ∧
    (insertCitation ct c).1.nextId = ct.nextId + 1 ∧
    TableWF (insertCitation ct c).1 ∧
    (∀ i, (insertCitation ct c).2 = some i →
      i < (insertCitation ct c).1.nextId ∧
      ∃ r ∈ (insertCitation ct c).1.rows, r.id = i) := by
  cases hv : violatedKey ct c.fields with
  | none =>
      rw [insertCitation_ok hv]
      refine ⟨Or.inr rfl, rfl, ⟨?_, ?_⟩, ?_⟩
      · intro r hr
        rcases List.mem_append.mp hr with h | h
        · exact Nat.lt_succ_of_lt (hwf.idsLt r h)
        · rw [List.mem_singleton.mp h]
          exact Nat.lt_succ_self _
      · rw [List.map_append, List.nodup_append]
        refine ⟨hwf.idsNodup, List.nodup_singleton _, ?_⟩
        intro i hi hmem
        rw [List.map_singleton, List.mem_singleton] at hmem
        obtain ⟨r, hr, hrid⟩ := List.mem_map.mp hi
        have h3 := hwf.idsLt r hr
        rw [hrid, hmem] at h3
        exact absurd h3 (lt_irrefl _)
      · intro i hi
        have h2 := Option.some.inj hi
        subst h2
        exact ⟨Nat.lt_succ_self _,
          ⟨⟨ct.nextId, c.fields, none⟩,
            List.mem_append_right _ (List.mem_singleton_self _), rfl⟩⟩
  | some k =>
      obtain ⟨v, hval, _⟩ := violatedKey_some_val hv
      rw [insertCitation_dup hv hval]
      refine ⟨Or.inl rfl, rfl, ⟨?_, hwf.idsNodup⟩, ?_⟩
      · intro r hr
        exact Nat.lt_succ_of_lt (hwf.idsLt r hr)
      · intro i hi
        obtain ⟨r, hfind, hrid⟩ := Option.map_eq_some'.mp hi
        have hrmem := List.mem_of_find?_eq_some hfind
        exact ⟨hrid ▸ Nat.lt_succ_of_lt (hwf.idsLt r hrmem), ⟨r, hrmem, hrid⟩⟩

/-- The citation loop: the table only grows, by flat rows with fresh
identifiers; well-formedness is preserved; every accumulated identifier
designates a stored row below the final serial value. -/
theorem insertCitations_spec (cs : List Paper) : ∀ ct : Table, TableWF ct →
    (∃ extra, (insertCitations ct cs).1.rows = ct.rows ++ extra ∧
      ∀ r ∈ extra, r.citations = none ∧ ct.nextId ≤ r.id) ∧
    ct.nextId ≤ (insertCitations ct cs).1.nextId ∧
    TableWF (insertCitations ct cs).1 ∧
    (∀ i ∈ (insertCitations ct cs).2,
      i < (insertCitations ct cs).1.nextId ∧
      ∃ r ∈ (insertCitations ct cs).1.rows, r.id = i) := by
  induction cs with
  | nil =>
      intro ct hwf
      exact ⟨⟨[], by simp [insertCitations], by simp⟩, le_refl _, hwf,
        by simp [insertCitations]⟩
  | cons c cs ih =>
      intro ct hwf
      obtain ⟨hrows1, hnext1, hwf1, hid1⟩ := insertCitation_spec ct c hwf
      obtain ⟨⟨e2, he2, he2p⟩, hnext2, hwf2, hid2⟩ :=
        ih (insertCitation ct c).1 hwf1
      simp only [insertCitations]
      have hle : ct.nextId ≤ (insertCitations (insertCitation ct c).1 cs).1.nextId := by
        rw [hnext1] at hnext2
        omega
      refine ⟨?_, hle, hwf2, ?_⟩
      · rcases hrows1 with h1 | h1
        · refine ⟨e2, by rw [he2, h1], ?_⟩
          intro r hr
          have := he2p r hr
          rw [hnext1] at this
          exact ⟨this.1, by omega⟩
        · refine ⟨⟨ct.nextId, c.fields, none⟩ :: e2, ?_, ?_⟩
          · rw [he2, h1, List.append_assoc]
            rfl
          · intro r hr
            rcases List.mem_cons.mp hr with h | h
            · rw [h]
              exact ⟨rfl, le_refl _⟩
            · have := he2p r h
              rw [hnext1] at this
              exact ⟨this.1, by omega⟩
      · intro i hi
        cases hsnd : (insertCitation ct c).2 with
        | none =>
            rw [hsnd] at hi
            exact hid2 i hi
        | some j =>
            rw [hsnd] at hi
            rcases List.mem_cons.mp hi with h | h
            · subst h
              obtain ⟨hjlt, r, hrmem, hrid⟩ := hid1 i hsnd
              refine ⟨by omega, ⟨r, ?_, hrid⟩⟩
              rw [he2]
              exact List.mem_append_left _ hrmem
            · exact hid2 i h

/-- Phase 1 as a whole: null citations leave the citation table untouched
and record null; otherwise the loop's guarantees carry over. -/
theorem phase1_spec (ct : Table) (cits : Option (List Paper)) (hwf : TableWF ct) :
    (∃ extra, (phase1 ct cits).1.rows = ct.rows ++ extra ∧
      ∀ r ∈ extra, r.citations = none ∧ ct.nextId ≤ r.id) ∧
    ct.nextId ≤ (phase1 ct cits).1.nextId ∧
    TableWF (phase1 ct cits).1 ∧
    (∀ l, (phase1 ct cits).2 = some l → ∀ i ∈ l,
      i < (phase1 ct cits).1.nextId ∧
      ∃ r ∈ (phase1 ct cits).1.rows, r.id = i) := by
  cases cits with
  | none =>
      exact ⟨⟨[], by simp [phase1], by simp⟩, le_refl _, hwf,
        by simp [phase1]⟩
  | some cs =>
      obtain ⟨he, hn, hw, hi⟩ := insertCitations_spec cs ct hwf
      refine ⟨he, hn, hw, ?_⟩
      intro l hl i hil
      have h2 := Option.some.inj (show some (insertCitations ct cs).2 = some l from hl)
      subst h2
      exact hi i hil

/-! Stability of decoding under table growth, and the one-append lemma. -/

/-- Unfolding equation for `__getitem__` at an out-of-range position. -/
theorem getItem_none (st : SQLPapers) (key : Nat) (h : st.rowIds[key]? = none) :
    st.getItem key = Except.error GetItemError.indexError := by
  unfold SQLPapers.getItem
  rw [h]

/-- Unfolding equation for `__getitem__` at an in-range position. -/
theorem getItem_some (st : SQLPapers) (key id : Nat)
    (h : st.rowIds[key]? = some id) :
    st.getItem key = (st.getById id).mapError GetItemError.read := by
  unfold SQLPapers.getItem
  rw [h]

/-- Unfolding equation for `__get_by_id` when no row matches. -/
theorem getById_missing (st : SQLPapers) (id : Nat)
    (h : st.papersTable.getRow id = none) :
    st.getById id = Except.error ReadError.typeError := by
  unfold SQLPapers.getById
  rw [h]

/-- Unfolding equation for `__get_by_id` when a row matches. -/
theorem getById_row (st : SQLPapers) (id : Nat) (r : Row)
    (h : st.papersTable.getRow id = some r) :
    st.getById id = yieldPaper st.citTable r := by
  unfold SQLPapers.getById
  rw [h]

/-- Unfolding equation for the citation-table `__get_by_id` when no row
matches. -/
theorem getByIdCit_missing (ct : Table) (id : Nat) (h : ct.getRow id = none) :
    getByIdCit ct id = Except.error ReadError.typeError := by
  unfold getByIdCit
  rw [h]

/-- Unfolding equation for the citation-table `__get_by_id` when a row
matches. -/
theorem getByIdCit_row (ct : Table) (id : Nat) (r : Row)
    (h : ct.getRow id = some r) : getByIdCit ct id = yieldCitPaper r := by
  unfold getByIdCit
  rw [h]

/-- Decoding equation: a citation row with a null `citations` column decodes
to a record with null citations. -/
theorem yieldCitPaper_flat (r : Row) (h : r.citations = none) :
    yieldCitPaper r = Except.ok ⟨r.fields, none⟩ := by
  unfold yieldCitPaper
  rw [h]

/-- Decoding equation: a primary row with a null `citations` column decodes
with no citation-table access. -/
theorem yieldPaper_flat (ct : Table) (r : Row) (h : r.citations = none) :
    yieldPaper ct r = Except.ok ⟨r.fields, none⟩ := by
  unfold yieldPaper
  rw [h]

/-- Decoding equation: a primary row with a stored identifier list resolves
each identifier through the citation table. -/
theorem yieldPaper_ids (ct : Table) (r : Row) (ids : List Nat)
    (h : r.citations = some ids) :
    yieldPaper ct r =
      (ids.mapM (getByIdCit ct)) >>= fun cs =>
        Except.ok ⟨r.fields, some cs⟩ := by
  unfold yieldPaper
  rw [h]

/-- Decoding a row only consults citation rows named by its `citations`
column; rows appended to the citation table with fresh identifiers are
invisible to it. -/
theorem yieldPaper_extend (ct : Table) (extra : List Row) (m : Nat) (row : Row)
    (hfresh : ∀ r ∈ extra, ct.nextId ≤ r.id)
    (hlt : ∀ l, row.citations = some l → ∀ k ∈ l, k < ct.nextId) :
    yieldPaper ⟨ct.rows ++ extra, m⟩ row = yieldPaper ct row := by
  cases hc : row.citations with
  | none => rw [yieldPaper_flat _ row hc, yieldPaper_flat ct row hc]
  | some ids =>
      rw [yieldPaper_ids _ row ids hc, yieldPaper_ids ct row ids hc]
      have hmm : ids.mapM (getByIdCit ⟨ct.rows ++ extra, m⟩) =
          ids.mapM (getByIdCit ct) := by
        apply mapM_congr_except
        intro k hk
        unfold getByIdCit
        rw [getRow_extend ct.rows extra ct.nextId m k]
        intro r hr he
        have h1 := hfresh r hr
        have h2 := hlt ids hc k hk
        omega
      rw [hmm]

/-- Resolving an identifier generated before an append is unaffected by the
append's new rows (one fresh-id row on the primary table, fresh-id rows on
the citation table). -/
theorem getById_extend (pt ct : Table) (extra : List Row) (newRow : Row)
    (m2 m3 : Nat) (rIds rIds2 : List Nat) (id0 : Nat)
    (hid0 : id0 < pt.nextId)
    (hnewid : pt.nextId ≤ newRow.id)
    (hfresh : ∀ r ∈ extra, ct.nextId ≤ r.id)
    (hcit : ∀ r ∈ pt.rows, ∀ l, r.citations = some l → ∀ k ∈ l, k < ct.nextId) :
    SQLPapers.getById ⟨⟨pt.rows ++ [newRow], m2⟩, ⟨ct.rows ++ extra, m3⟩, rIds⟩ id0 =
      SQLPapers.getById ⟨pt, ct, rIds2⟩ id0 := by
  have hg : Table.getRow ⟨pt.rows ++ [newRow], m2⟩ id0 = pt.getRow id0 := by
    rw [getRow_extend pt.rows [newRow] pt.nextId m2 id0
      (fun r hr => by rw [List.mem_singleton.mp hr]; omega)]
  cases hrow : pt.getRow id0 with
  | none =>
      rw [getById_missing ⟨⟨pt.rows ++ [newRow], m2⟩, ⟨ct.rows ++ extra, m3⟩, rIds⟩
          id0 (show Table.getRow ⟨pt.rows ++ [newRow], m2⟩ id0 = none
            by rw [hg, hrow]),
        getById_missing ⟨pt, ct, rIds2⟩ id0 hrow]
  | some r =>
      have hrmem : r ∈ pt.rows := by
        unfold Table.getRow at hrow
        exact List.mem_of_find?_eq_some hrow
      rw [getById_row ⟨⟨pt.rows ++ [newRow], m2⟩, ⟨ct.rows ++ extra, m3⟩, rIds⟩
          id0 r (show Table.getRow ⟨pt.rows ++ [newRow], m2⟩ id0 = some r
            by rw [hg, hrow]),
        getById_row ⟨pt, ct, rIds2⟩ id0 r hrow]
      exact yieldPaper_extend ct extra m3 r hfresh fun l hl k hk =>
        hcit r hrmem l hl k hk

/-- A successful `append` from a well-formed state: no error, the fresh
identifier lands at the end of `rowIds`, well-formedness is preserved,
every earlier position reads back exactly as before, and the new position
reads back a record carrying the appended record's fields. -/
theorem append_step (st : SQLPapers) (p : Paper) (hwf : st.WF)
    (hok : appendOk st p = true) :
    (st.append p true).1.WF ∧
    (st.append p true).2 = none ∧
    (st.append p true).1.rowIds = st.rowIds ++ [st.papersTable.nextId] ∧
    (∀ i, i < st.rowIds.length →
      (st.append p true).1.getItem i = st.getItem i) ∧
    (∃ cits, (st.append p true).1.getItem st.rowIds.length =
      Except.ok ⟨p.fields, cits⟩) := by
  have hv : violatedKey st.papersTable p.fields = none :=
    Option.isNone_iff_eq_none.mp hok
  obtain ⟨⟨extra, hext, hextp⟩, hctn, hctwf, hcid⟩ :=
    phase1_spec st.citTable p.citations hwf.ct
  have happ := appendPrimary_ok (phase1 st.citTable p.citations).1
    (phase1 st.citTable p.citations).2 true hv
  have happ2 : st.append p true = appendPrimary st
      (phase1 st.citTable p.citations).1
      (phase1 st.citTable p.citations).2 p.fields true := rfl
  rw [happ2, happ]
  have hflat2 : ∀ r ∈ (phase1 st.citTable p.citations).1.rows,
      r.citations = none := by
    intro r hr
    rw [hext] at hr
    rcases List.mem_append.mp hr with h | h
    · exact hwf.citFlat r h
    · exact (hextp r h).1
  have hshape : (phase1 st.citTable p.citations).1 =
      ⟨st.citTable.rows ++ extra, (phase1 st.citTable p.citations).1.nextId⟩ := by
    rw [← hext]
  set stNew : SQLPapers :=
    ⟨⟨st.papersTable.rows ++ [⟨st.papersTable.nextId, p.fields,
        (phase1 st.citTable p.citations).2⟩], st.papersTable.nextId + 1⟩,
      (phase1 st.citTable p.citations).1,
      st.rowIds ++ [st.papersTable.nextId]⟩ with hstNew
  refine ⟨?_, rfl, rfl, ?_, ?_⟩
  · -- well-formedness of the post-append state
    refine ⟨⟨?_, ?_⟩, ?_, ?_, ?_, ?_⟩
    · intro r hr
      rcases List.mem_append.mp hr with h | h
      · exact Nat.lt_succ_of_lt (hwf.pt.idsLt r h)
      · rw [List.mem_singleton.mp h]
        exact Nat.lt_succ_self _
    · show ((st.papersTable.rows ++ [_]).map Row.id).Nodup
      rw [List.map_append, List.nodup_append]
      refine ⟨hwf.pt.idsNodup, List.nodup_singleton _, ?_⟩
      intro i hi hmem
      rw [List.map_singleton, List.mem_singleton] at hmem
      obtain ⟨r, hr, hrid⟩ := List.mem_map.mp hi
      have h3 := hwf.pt.idsLt r hr
      rw [hrid, hmem] at h3
      exact absurd h3 (lt_irrefl _)
    · exact hctwf
    · intro i hi
      rcases List.mem_append.mp hi with h | h
      · exact Nat.lt_succ_of_lt (hwf.rowIdsLt i h)
      · rw [List.mem_singleton.mp h]
        exact Nat.lt_succ_self _
    · exact hflat2
    · intro r hr l hl k hk
      rcases List.mem_append.mp hr with h | h
      · exact lt_of_lt_of_le (hwf.citIdsLt r h l hl k hk) hctn
      · rw [List.mem_singleton.mp h] at hl
        exact (hcid l hl k hk).1
  · -- earlier positions read back unchanged
    intro i hi
    have hkey2 : stNew.rowIds[i]? = st.rowIds[i]? := by
      rw [hstNew]
      show (st.rowIds ++ [st.papersTable.nextId])[i]? = st.rowIds[i]?
      rw [List.getElem?_append, if_pos hi]
    cases hiv : st.rowIds[i]? with
    | none =>
        rw [getItem_none stNew i (by rw [hkey2, hiv]), getItem_none st i hiv]
    | some id0 =>
        have hid0 : id0 < st.papersTable.nextId :=
          hwf.rowIdsLt id0 (List.getElem?_mem hiv)
        rw [getItem_some stNew i id0 (by rw [hkey2, hiv]),
          getItem_some st i id0 hiv]
        have hgb : stNew.getById id0 = st.getById id0 := by
          rw [hstNew, hshape]
          exact getById_extend st.papersTable st.citTable extra
            ⟨st.papersTable.nextId, p.fields, (phase1 st.citTable p.citations).2⟩
            (st.papersTable.nextId + 1) (phase1 st.citTable p.citations).1.nextId
            (st.rowIds ++ [st.papersTable.nextId]) st.rowIds id0
            hid0 (le_refl _) (fun r hr => (hextp r hr).2)
            (fun r hr => hwf.citIdsLt r hr)
        rw [hgb]
  · -- the new position reads back the appended fields
    have hkey3 : stNew.rowIds[st.rowIds.length]? = some st.papersTable.nextId := by
      rw [hstNew]
      exact List.getElem?_concat_length _ _
    have hrow3 : stNew.papersTable.getRow st.papersTable.nextId =
        some ⟨st.papersTable.nextId, p.fields,
          (phase1 st.citTable p.citations).2⟩ := by
      rw [hstNew]
      exact getRow_new st.papersTable.rows (st.papersTable.nextId + 1)
        ⟨st.papersTable.nextId, p.fields, (phase1 st.citTable p.citations).2⟩
        (fun r hr => by
          have h5 := hwf.pt.idsLt r hr
          intro he
          rw [he] at h5
          exact absurd h5 (lt_irrefl _))
    rw [getItem_some stNew st.rowIds.length st.papersTable.nextId hkey3,
      getById_row stNew st.papersTable.nextId _ hrow3]
    cases hc2 : (phase1 st.citTable p.citations).2 with
    | none =>
        refine ⟨none, ?_⟩
        rw [yieldPaper_flat stNew.citTable
          ⟨st.papersTable.nextId, p.fields, none⟩ rfl]
        rfl
    | some l =>
        have hall : ∀ i ∈ l, ∃ b,
            getByIdCit (phase1 st.citTable p.citations).1 i = Except.ok b := by
          intro i hi
          obtain ⟨hlt2, hmem2⟩ := hcid l hc2 i hi
          obtain ⟨r2, hr2eq, hr2mem⟩ := getRow_of_mem hmem2
          refine ⟨⟨r2.fields, none⟩, ?_⟩
          rw [getByIdCit_row _ i r2 hr2eq, yieldCitPaper_flat r2 (hflat2 r2 hr2mem)]
        obtain ⟨bs, hbs, _⟩ := mapM_ok_of_forall hall
        refine ⟨some bs, ?_⟩
        rw [yieldPaper_ids stNew.citTable
          ⟨st.papersTable.nextId, p.fields, some l⟩ l rfl]
        have hctEq : stNew.citTable = (phase1 st.citTable p.citations).1 := by
          rw [hstNew]
        rw [hctEq, hbs]
        rfl

/-- The fresh store (both tables just created) is well formed. -/
theorem fresh_WF : SQLPapers.fresh.WF := by
  refine ⟨⟨?_, ?_⟩, ⟨?_, ?_⟩, ?_, ?_, ?_⟩ <;>
    simp [SQLPapers.fresh, Table.empty]

/-- An out-of-range position fails with `IndexError`, whatever the tables
hold: the failure comes from the in-memory `rowIds` list alone, before any
database access. -/
theorem getItem_out_of_range (pt ct : Table) (rIds : List Nat) (j : Nat)
    (h : rIds.length ≤ j) :
    SQLPapers.getItem ⟨pt, ct, rIds⟩ j = Except.error GetItemError.indexError :=
  getItem_none ⟨pt, ct, rIds⟩ j (List.getElem?_eq_none h)

/-- Folding a list of all-successful appends over a well-formed store: one
new row identifier per append, earlier positions unchanged, and position
`(previous length) + i` reads back the `i`-th appended record's fields. -/
theorem appendAll_spec (ps : List Paper) : ∀ st : SQLPapers, st.WF →
    allOk st ps = true →
    (appendAll st ps).WF ∧
    (appendAll st ps).rowIds.length = st.rowIds.length + ps.length ∧
    (∀ i, i < st.rowIds.length → (appendAll st ps).getItem i = st.getItem i) ∧
    (∀ i (hi : i < ps.length), ∃ cits,
      (appendAll st ps).getItem (st.rowIds.length + i) =
        Except.ok ⟨(ps.get ⟨i, hi⟩).fields, cits⟩) := by
  induction ps with
  | nil =>
      intro st hwf _
      refine ⟨hwf, by simp [appendAll], fun i _ => rfl, ?_⟩
      intro i hi
      exact absurd hi (by simp)
  | cons p ps ih =>
      intro st hwf hok
      have hok0 : (appendOk st p && allOk (st.append p true).1 ps) = true := hok
      rw [Bool.and_eq_true] at hok0
      obtain ⟨hok1, hok2⟩ := hok0
      obtain ⟨hwf1, _, hrow1, hstab, hnew⟩ := append_step st p hwf hok1
      obtain ⟨hwfA, hlenA, hstabA, hnewA⟩ := ih (st.append p true).1 hwf1 hok2
      have hlen1 : (st.append p true).1.rowIds.length = st.rowIds.length + 1 := by
        rw [hrow1]
        simp
      have hAll : appendAll st (p :: ps) = appendAll (st.append p true).1 ps := rfl
      rw [hAll]
      refine ⟨hwfA, ?_, ?_, ?_⟩
      · rw [hlenA, hlen1]
        simp only [List.length_cons]
        omega
      · intro i hi
        rw [hstabA i (by omega)]
        exact hstab i hi
      · intro i hi
        cases i with
        | zero =>
            obtain ⟨cits, hc⟩ := hnew
            refine ⟨cits, ?_⟩
            rw [Nat.add_zero, hstabA st.rowIds.length (by omega)]
            exact hc
        | succ i2 =>
            have hi2 : i2 < ps.length := by simpa using hi
            obtain ⟨cits, hc⟩ := hnewA i2 hi2
            refine ⟨cits, ?_⟩
            have hidx : st.rowIds.length + (i2 + 1) =
                (st.append p true).1.rowIds.length + i2 := by
              rw [hlen1]
              omega
            rw [hidx]
            exact hc

/-- Unfolding equation for `append`: phase 1 on the record's citations,
then phase 2 on its remaining fields. -/
theorem append_eq (st : SQLPapers) (p : Paper) (complain : Bool) :
    st.append p complain =
      appendPrimary st (phase1 st.citTable p.citations).1
        (phase1 st.citTable p.citations).2 p.fields complain := rfl

/-- Sample natural-key value used in concrete checks. -/
def sA : String := "a"

/-- Second sample natural-key value. -/
def sB : String := "b"

/-- A record whose every column is null. -/
def emptyFields : PaperFields :=
  ⟨none, none, none, none, none, none, none, none, none, none, none,
    none, none, none, none, none, none, none, none, none, none⟩

/-- C4: the claim says resolving an identifier that matches no row fails
with the NotFound error (`KeyError('No Paper with that ID exists.')`, the
error the source's own lines 111-116 try to raise) and never with any other
kind of error.  The code disagrees: after an empty `SELECT` result,
psycopg2's `fetchone` returns `None` without raising `ProgrammingError`, so
the `KeyError` branch is dead and `_yield_paper(None)` raises `TypeError`
from `len(None)` — here checked on a fresh store at identifier 1. -/
theorem resolveById_missing_typeError :
    SQLPapers.fresh.getById 1 = Except.error ReadError.typeError ∧
    ReadError.typeError ≠ ReadError.keyError :=
  ⟨rfl, by decide⟩

/-- C10: in-place extension with any argument that is not a single `Paper`
instance — a list of `Paper`s, or `None` — is a silent no-op: no error is
raised, nothing is inserted, `rowIds` and both tables are unchanged, and
the store itself is returned. -/
theorem iadd_non_paper_noop (st : SQLPapers) (a : IAddArg)
    (h : ∀ p, a ≠ IAddArg.paper p) :
    st.iadd a = (st, none) := by
  cases a with
  | paper p => exact absurd rfl (h p)
  | papers ps => rfl
  | pyNone => rfl

/-- Concrete check of `iadd_non_paper_noop`: `+=` with a list of Papers. -/
theorem iadd_non_paper_noop_witness :
    (∀ p, IAddArg.papers [⟨emptyFields, none⟩] ≠ IAddArg.paper p) ∧
    SQLPapers.fresh.iadd (IAddArg.papers [⟨emptyFields, none⟩]) =
      (SQLPapers.fresh, none) :=
  ⟨fun _ h => IAddArg.noConfusion h,
    iadd_non_paper_noop SQLPapers.fresh (IAddArg.papers [⟨emptyFields, none⟩])
      fun _ h => IAddArg.noConfusion h⟩

/-- C3: appending a record whose primary insert hits a unique violation.
With `complain=true` the duplicate-record `ValueError` is raised (after the
`commit` on source line 228 clears the failed transaction); with
`complain=false` the call returns silently; in both cases `rowIds` is
unchanged (same list before and after). -/
theorem append_duplicate_rowIds (st : SQLPapers) (p : Paper) (k : NatKey)
    (hv : violatedKey st.papersTable p.fields = some k) :
    (st.append p true).2 = some (AppendError.duplicatePaper k) ∧
    (st.append p true).1.rowIds = st.rowIds ∧
    (st.append p false).2 = none ∧
    (st.append p false).1.rowIds = st.rowIds := by
  rw [append_eq st p true, append_eq st p false,
    appendPrimary_dup _ _ true hv, appendPrimary_dup _ _ false hv]
  exact ⟨rfl, rfl, rfl, rfl⟩

/-- Concrete check of `append_duplicate_rowIds`: re-appending a stored
record with `doi = "a"`. -/
theorem append_duplicate_rowIds_witness :
    violatedKey (⟨[⟨1, { emptyFields with doi := some sA }, none⟩], 2⟩ : Table)
      { emptyFields with doi := some sA } = some NatKey.doi ∧
    ((⟨⟨[⟨1, { emptyFields with doi := some sA }, none⟩], 2⟩, Table.empty,
        [1]⟩ : SQLPapers).append
      ⟨{ emptyFields with doi := some sA }, none⟩ true).2 =
      some (AppendError.duplicatePaper NatKey.doi) :=
  ⟨by decide,
    (append_duplicate_rowIds
      ⟨⟨[⟨1, { emptyFields with doi := some sA }, none⟩], 2⟩, Table.empty, [1]⟩
      ⟨{ emptyFields with doi := some sA }, none⟩ NatKey.doi (by decide)).1⟩

/-- C8 counterexample: `SELECT id FROM t;` (source line 86) carries no
`ORDER BY`, so attaching to an existing table whose scan returns rows out
of identifier order loads `rowIds` in that scan order — here `[2, 1]`,
which is not sorted ascending, contradicting the claim that `rowIds` is
sorted ascending by identifier after attach. -/
theorem attach_not_sorted :
    (SQLPapers.attach ⟨[⟨2, emptyFields, none⟩, ⟨1, emptyFields, none⟩], 3⟩
      Table.empty).rowIds = [2, 1] ∧
    ¬ List.Sorted (· ≤ ·) [2, 1] :=
  ⟨rfl, by decide⟩

/-- C8 (amended): the attaching constructor issues no DDL — both tables are
left exactly as supplied — and loads `rowIds` with all row identifiers of
the table, in the order the scan returns them; the result is sorted
ascending by identifier exactly when the scan order already is. -/
theorem attach_loads_ids (pt ct : Table) :
    (SQLPapers.attach pt ct).papersTable = pt ∧
    (SQLPapers.attach pt ct).citTable = ct ∧
    (SQLPapers.attach pt ct).rowIds = pt.rows.map Row.id ∧
    ((pt.rows.map Row.id).Sorted (· ≤ ·) →
      (SQLPapers.attach pt ct).rowIds.Sorted (· ≤ ·)) :=
  ⟨rfl, rfl, rfl, fun h => h⟩

/-- Concrete check of `attach_loads_ids` on an id-ordered two-row table. -/
theorem attach_loads_ids_witness :
    (([⟨1, emptyFields, none⟩, ⟨2, emptyFields, none⟩] : List Row).map
      Row.id).Sorted (· ≤ ·) ∧
    (SQLPapers.attach ⟨[⟨1, emptyFields, none⟩, ⟨2, emptyFields, none⟩], 3⟩
      Table.empty).rowIds.Sorted (· ≤ ·) :=
  ⟨by decide,
    (attach_loads_ids ⟨[⟨1, emptyFields, none⟩, ⟨2, emptyFields, none⟩], 3⟩
      Table.empty).2.2.2 (by decide)⟩

/-- C6: a null `citations` field skips the citation phase entirely — the
citation table is untouched — and the stored row's `citations` column is
null, not an empty list; a non-null `citations` field stores exactly the
ordered identifier list accumulated by the citation phase. -/
theorem append_citations_column (st : SQLPapers) (f : PaperFields)
    (complain : Bool) :
    ((st.append ⟨f, none⟩ complain).1.citTable = st.citTable ∧
      (violatedKey st.papersTable f = none →
        (st.append ⟨f, none⟩ complain).1.papersTable.rows =
          st.papersTable.rows ++ [⟨st.papersTable.nextId, f, none⟩])) ∧
    (∀ cs, violatedKey st.papersTable f = none →
      (st.append ⟨f, some cs⟩ complain).1.papersTable.rows =
        st.papersTable.rows ++
          [⟨st.papersTable.nextId, f,
            some (insertCitations st.citTable cs).2⟩]) := by
  refine ⟨⟨?_, ?_⟩, ?_⟩
  · show (appendPrimary st st.citTable none f complain).1.citTable = st.citTable
    unfold appendPrimary
    cases st.papersTable.insert f none with
    | ok t id => rfl
    | uniqueViolation t k => cases complain <;> rfl
  · intro hv
    show (appendPrimary st st.citTable none f complain).1.papersTable.rows = _
    rw [appendPrimary_ok st.citTable none complain hv]
  · intro cs hv
    show (appendPrimary st (insertCitations st.citTable cs).1
      (some (insertCitations st.citTable cs).2) f complain).1.papersTable.rows = _
    rw [appendPrimary_ok _ _ complain hv]

/-- Concrete check of `append_citations_column`: appending a record with an
empty (non-null) citations list to a fresh store. -/
theorem append_citations_column_witness :
    violatedKey SQLPapers.fresh.papersTable emptyFields = none ∧
    (SQLPapers.fresh.append ⟨emptyFields, some []⟩ true).1.papersTable.rows =
      SQLPapers.fresh.papersTable.rows ++
        [⟨SQLPapers.fresh.papersTable.nextId, emptyFields,
          some (insertCitations SQLPapers.fresh.citTable []).2⟩] :=
  ⟨by decide,
    (append_citations_column SQLPapers.fresh emptyFields true).2 [] (by decide)⟩

/-- `mapM` over a mapped list fuses, for `Except`. -/
theorem mapM_map_except {α β ε δ : Type} (l : List α) (f : α → β)
    (g : β → Except ε δ) :
    (l.map f).mapM g = l.mapM fun a => g (f a) := by
  induction l with
  | nil => rfl
  | cons a as ih => rw [List.map_cons, List.mapM_cons, List.mapM_cons, ih]

/-- C7: full iteration decodes each stored row with the same logic as
identifier resolution: with the primary key in force (pairwise distinct
identifiers), the yielded sequence equals resolving each row's identifier
in row order, and a successful iteration yields exactly one record per
stored row.  Restartability is immediate in this model: `iterate` is a pure
function of the state, so every call returns the same full sequence. -/
theorem iterate_eq_resolve (st : SQLPapers)
    (hnd : (st.papersTable.rows.map Row.id).Nodup) :
    st.iterate = (st.papersTable.rows.map Row.id).mapM st.getById ∧
    ∀ ys, st.iterate = Except.ok ys → ys.length = st.papersTable.rows.length := by
  constructor
  · rw [mapM_map_except]
    show st.papersTable.rows.mapM (yieldPaper st.citTable) = _
    apply mapM_congr_except
    intro r hr
    exact (getById_row st r.id r (getRow_self hnd hr)).symm
  · intro ys hy
    have hy2 : st.papersTable.rows.mapM (yieldPaper st.citTable) =
        Except.ok ys := hy
    exact length_of_mapM_ok hy2

/-- Concrete check of `iterate_eq_resolve` on a two-row store. -/
theorem iterate_eq_resolve_witness :
    ((([⟨1, emptyFields, none⟩, ⟨2, emptyFields, none⟩] : List Row).map
      Row.id).Nodup) ∧
    (⟨⟨[⟨1, emptyFields, none⟩, ⟨2, emptyFields, none⟩], 3⟩, Table.empty,
        [1, 2]⟩ : SQLPapers).iterate =
      ((([⟨1, emptyFields, none⟩, ⟨2, emptyFields, none⟩] : List Row).map
        Row.id).mapM
        (⟨⟨[⟨1, emptyFields, none⟩, ⟨2, emptyFields, none⟩], 3⟩, Table.empty,
          [1, 2]⟩ : SQLPapers).getById) :=
  ⟨by decide,
    (iterate_eq_resolve
      ⟨⟨[⟨1, emptyFields, none⟩, ⟨2, emptyFields, none⟩], 3⟩, Table.empty,
        [1, 2]⟩ (by decide)).1⟩

/-- A citation insert leaves the rows alone (duplicate) or appends one row
with a null `citations` column. -/
theorem insertCitation_rows (ct : Table) (c : Paper) :
    (insertCitation ct c).1.rows = ct.rows ∨
    (insertCitation ct c).1.rows = ct.rows ++ [⟨ct.nextId, c.fields, none⟩] := by
  cases hv : violatedKey ct c.fields with
  | none =>
      rw [insertCitation_ok hv]
      exact Or.inr rfl
  | some k =>
      obtain ⟨v, hval, _⟩ := violatedKey_some_val hv
      rw [insertCitation_dup hv hval]
      exact Or.inl rfl

/-- The citation loop only ever appends rows with null `citations`. -/
theorem insertCitations_rows (cs : List Paper) : ∀ ct : Table,
    ∃ extra, (insertCitations ct cs).1.rows = ct.rows ++ extra ∧
      ∀ r ∈ extra, r.citations = none := by
  induction cs with
  | nil =>
      intro ct
      exact ⟨[], by simp [insertCitations], by simp⟩
  | cons c cs ih =>
      intro ct
      obtain ⟨e2, he2, hf2⟩ := ih (insertCitation ct c).1
      rcases insertCitation_rows ct c with h1 | h1
      · refine ⟨e2, ?_, hf2⟩
        show (insertCitations (insertCitation ct c).1 cs).1.rows = ct.rows ++ e2
        rw [he2, h1]
      · refine ⟨⟨ct.nextId, c.fields, none⟩ :: e2, ?_, ?_⟩
        · show (insertCitations (insertCitation ct c).1 cs).1.rows =
            ct.rows ++ (⟨ct.nextId, c.fields, none⟩ :: e2)
          rw [he2, h1, List.append_assoc]
          rfl
        · intro r hr
          rcases List.mem_cons.mp hr with h | h
          · rw [h]
          · exact hf2 r h

/-- Phase 1 only ever appends rows with null `citations`. -/
theorem phase1_rows (cits : Option (List Paper)) (ct : Table) :
    ∃ extra, (phase1 ct cits).1.rows = ct.rows ++ extra ∧
      ∀ r ∈ extra, r.citations = none := by
  cases cits with
  | none => exact ⟨[], by simp [phase1], by simp⟩
  | some cs => exact insertCitations_rows cs ct

/-- C9: every row `append` writes into the citation table has a null
`citations` column (the citation-phase insert excludes the `citations`
field, source lines 169-170), and consequently — once every citation row is
flat — resolving a citation identifier never recurses further: it cannot
hit the nonexistent `_citations_citations` table, and any record it returns
has null citations. -/
theorem citation_rows_flat (st : SQLPapers) (p : Paper) (complain : Bool) :
    (∀ r ∈ (st.append p complain).1.citTable.rows,
      r ∈ st.citTable.rows ∨ r.citations = none) ∧
    ((∀ r ∈ st.citTable.rows, r.citations = none) → ∀ id,
      getByIdCit st.citTable id ≠ Except.error ReadError.missingTable ∧
      (∀ q, getByIdCit st.citTable id = Except.ok q → q.citations = none)) := by
  constructor
  · have hct : (st.append p complain).1.citTable =
        (phase1 st.citTable p.citations).1 := by
      rw [append_eq]
      unfold appendPrimary
      cases st.papersTable.insert p.fields (phase1 st.citTable p.citations).2 with
      | ok t id => rfl
      | uniqueViolation t k => cases complain <;> rfl
    intro r hr
    rw [hct] at hr
    obtain ⟨extra, hext, hflat⟩ := phase1_rows p.citations st.citTable
    rw [hext] at hr
    rcases List.mem_append.mp hr with h | h
    · exact Or.inl h
    · exact Or.inr (hflat r h)
  · intro hflatAll id
    cases hg : st.citTable.getRow id with
    | none =>
        rw [getByIdCit_missing st.citTable id hg]
        refine ⟨fun h => ReadError.noConfusion (Except.error.inj h), ?_⟩
        intro q hq
        exact absurd hq (fun h => Except.noConfusion h)
    | some r =>
        have hmem : r ∈ st.citTable.rows := by
          unfold Table.getRow at hg
          exact List.mem_of_find?_eq_some hg
        rw [getByIdCit_row st.citTable id r hg,
          yieldCitPaper_flat r (hflatAll r hmem)]
        refine ⟨fun h => Except.noConfusion h, ?_⟩
        intro q hq
        rw [← Except.ok.inj hq]

/-- Concrete check of `citation_rows_flat` on a fresh store. -/
theorem citation_rows_flat_witness :
    (∀ r ∈ SQLPapers.fresh.citTable.rows, r.citations = none) ∧
    getByIdCit SQLPapers.fresh.citTable 1 ≠
      Except.error ReadError.missingTable :=
  ⟨by decide,
    ((citation_rows_flat SQLPapers.fresh ⟨emptyFields, none⟩ true).2
      (by decide) 1).1⟩

/-- C1: appending two records whose shared citation is structurally
identical (same fields, carrying at least one natural key) to a fresh
store.  The second citation insert violates a unique constraint; the
violating column is parsed out of the error message and the existing row's
identifier looked up by that column's value, so the citation table ends
with exactly one row for the citation and both parent rows' `citations`
columns hold exactly that shared identifier. -/
theorem append_shared_citation_dedup (f1 f2 : PaperFields) (c : Paper)
    (hnk : hasNatKey c.fields = true) (hcl : keyClash f2 f1 = false) :
    ∃ cid,
      ((SQLPapers.fresh.append ⟨f1, some [c]⟩ true).1.append ⟨f2, some [c]⟩
        true).1.citTable.rows.map Row.id = [cid] ∧
      ((SQLPapers.fresh.append ⟨f1, some [c]⟩ true).1.append ⟨f2, some [c]⟩
        true).1.papersTable.rows.map Row.citations =
        [some [cid], some [cid]] := by
  obtain ⟨k, v, hk2, hval⟩ := violatedKey_singleton_self hnk 1 none 2
  have hstep1 : insertCitation Table.empty c =
      (⟨[⟨1, c.fields, none⟩], 2⟩, some 1) :=
    insertCitation_ok (violatedKey_empty c.fields)
  have hfind : (([⟨1, c.fields, none⟩] : List Row).find?
      fun r => r.fields.natGet k == some v) = some ⟨1, c.fields, none⟩ :=
    List.find?_cons_of_pos _ (by simp [hval])
  have hdup : insertCitation ⟨[⟨1, c.fields, none⟩], 2⟩ c =
      (⟨[⟨1, c.fields, none⟩], 3⟩, some 1) := by
    simp only [insertCitation_dup hk2 hval, hfind, Option.map_some']
  have hprim1 : Table.insert Table.empty f1 (some [1]) =
      InsertResult.ok ⟨[⟨1, f1, some [1]⟩], 2⟩ 1 :=
    Table.insert_ok (some [1]) (violatedKey_empty f1)
  have hvf2 : violatedKey (⟨[⟨1, f1, some [1]⟩], 2⟩ : Table) f2 = none :=
    violatedKey_singleton_of_clash_free hcl 1 (some [1]) 2
  have hprim2 : Table.insert ⟨[⟨1, f1, some [1]⟩], 2⟩ f2 (some [1]) =
      InsertResult.ok ⟨[⟨1, f1, some [1]⟩, ⟨2, f2, some [1]⟩], 3⟩ 2 :=
    Table.insert_ok (some [1]) hvf2
  have hfull : ((SQLPapers.fresh.append ⟨f1, some [c]⟩ true).1.append
      ⟨f2, some [c]⟩ true).1 =
      ⟨⟨[⟨1, f1, some [1]⟩, ⟨2, f2, some [1]⟩], 3⟩,
        ⟨[⟨1, c.fields, none⟩], 3⟩, [1, 2]⟩ := by
    simp only [SQLPapers.append, SQLPapers.fresh, phase1, insertCitations,
      hstep1, hdup, appendPrimary, hprim1, hprim2]
    rfl
  refine ⟨1, ?_, ?_⟩ <;> rw [hfull] <;> rfl

/-- Concrete check of `append_shared_citation_dedup`: parents with
`doi = "a"` and `doi = "b"` sharing a citation with `doi = "c"`. -/
theorem append_shared_citation_dedup_witness :
    hasNatKey { emptyFields with pmid := some sB } = true ∧
    keyClash { emptyFields with doi := some sB } { emptyFields with doi := some sA } = false ∧
    ∃ cid,
      ((SQLPapers.fresh.append
        ⟨{ emptyFields with doi := some sA },
          some [⟨{ emptyFields with pmid := some sB }, none⟩]⟩ true).1.append
        ⟨{ emptyFields with doi := some sB },
          some [⟨{ emptyFields with pmid := some sB }, none⟩]⟩
        true).1.citTable.rows.map Row.id = [cid] ∧
      ((SQLPapers.fresh.append
        ⟨{ emptyFields with doi := some sA },
          some [⟨{ emptyFields with pmid := some sB }, none⟩]⟩ true).1.append
        ⟨{ emptyFields with doi := some sB },
          some [⟨{ emptyFields with pmid := some sB }, none⟩]⟩
        true).1.papersTable.rows.map Row.citations =
        [some [cid], some [cid]] :=
  ⟨by decide, by decide,
    append_shared_citation_dedup { emptyFields with doi := some sA }
      { emptyFields with doi := some sB }
      ⟨{ emptyFields with pmid := some sB }, none⟩ (by decide) (by decide)⟩

/-- C2: a fresh store, one appended record with two nested citation records
whose natural keys do not clash.  Reading position 0 back yields a record
with the appended record's fields whose `citations` field holds two records
equal, field for field, to the two originals, in the order their
identifiers were accumulated. -/
theorem round_trip_two_citations (f : PaperFields) (c1 c2 : Paper)
    (hcl : keyClash c2.fields c1.fields = false) :
    ∃ d1 d2,
      (SQLPapers.fresh.append ⟨f, some [c1, c2]⟩ true).1.getItem 0 =
        Except.ok ⟨f, some [d1, d2]⟩ ∧
      d1.fields = c1.fields ∧ d2.fields = c2.fields := by
  have hstep1 : insertCitation Table.empty c1 =
      (⟨[⟨1, c1.fields, none⟩], 2⟩, some 1) :=
    insertCitation_ok (violatedKey_empty c1.fields)
  have hv2 : violatedKey (⟨[⟨1, c1.fields, none⟩], 2⟩ : Table) c2.fields = none :=
    violatedKey_singleton_of_clash_free hcl 1 none 2
  have hstep2 : insertCitation ⟨[⟨1, c1.fields, none⟩], 2⟩ c2 =
      (⟨[⟨1, c1.fields, none⟩, ⟨2, c2.fields, none⟩], 3⟩, some 2) :=
    insertCitation_ok hv2
  have hprim : Table.insert Table.empty f (some [1, 2]) =
      InsertResult.ok ⟨[⟨1, f, some [1, 2]⟩], 2⟩ 1 :=
    Table.insert_ok (some [1, 2]) (violatedKey_empty f)
  have hfull : (SQLPapers.fresh.append ⟨f, some [c1, c2]⟩ true).1 =
      ⟨⟨[⟨1, f, some [1, 2]⟩], 2⟩,
        ⟨[⟨1, c1.fields, none⟩, ⟨2, c2.fields, none⟩], 3⟩, [1]⟩ := by
    simp only [SQLPapers.append, SQLPapers.fresh, phase1, insertCitations,
      hstep1, hstep2, appendPrimary, hprim]
    rfl
  refine ⟨⟨c1.fields, none⟩, ⟨c2.fields, none⟩, ?_, rfl, rfl⟩
  rw [hfull]
  rfl

/-- Concrete check of `round_trip_two_citations`: citations with
`doi = "a"` and `doi = "b"`. -/
theorem round_trip_two_citations_witness :
    keyClash { emptyFields with doi := some sB }
      { emptyFields with doi := some sA } = false ∧
    ∃ d1 d2,
      (SQLPapers.fresh.append
        ⟨emptyFields, some [⟨{ emptyFields with doi := some sA }, none⟩,
          ⟨{ emptyFields with doi := some sB }, none⟩]⟩ true).1.getItem 0 =
        Except.ok ⟨emptyFields, some [d1, d2]⟩ ∧
      d1.fields = { emptyFields with doi := some sA } ∧
      d2.fields = { emptyFields with doi := some sB } :=
  ⟨by decide,
    round_trip_two_citations emptyFields
      ⟨{ emptyFields with doi := some sA }, none⟩
      ⟨{ emptyFields with doi := some sB }, none⟩ (by decide)⟩

/-- C5 counterexample: one successful append of a record whose citation
itself carries a non-null (empty) `citations` list.  Reading position 0
back yields a record whose citation has a null `citations` field — the
citation-phase insert drops the nested `citations` field — so indexing does
not return the appended record itself, refuting the claim as stated. -/
theorem getItem_not_original :
    (appendAll SQLPapers.fresh
      [⟨emptyFields, some [⟨emptyFields, some []⟩]⟩]).getItem 0 =
      Except.ok ⟨emptyFields, some [⟨emptyFields, none⟩]⟩ ∧
    (Except.ok ⟨emptyFields, some [⟨emptyFields, none⟩]⟩ :
        Except GetItemError Paper) ≠
      Except.ok ⟨emptyFields, some [⟨emptyFields, some []⟩]⟩ := by
  refine ⟨rfl, ?_⟩
  intro hcontra
  have h1 := Except.ok.inj hcontra
  have h2 := congrArg Paper.citations h1
  have h3 := Option.some.inj h2
  have h4 := congrArg List.head? h3
  have h5 := Option.some.inj h4
  have h6 := congrArg Paper.citations h5
  exact Option.noConfusion h6

/-- C5 (amended): after `n` all-successful appends to a fresh store,
position `i < n` resolves the `i`-th appended row identifier, yielding a
record that carries exactly the `i`-th appended record's fields (its
`citations` field is re-resolved from the tables rather than being the
original nested value — see `getItem_not_original`), and any out-of-range
position fails with `IndexError` computed from the in-memory index alone,
whatever the two tables hold. -/
theorem getItem_after_appends (ps : List Paper)
    (h : allOk SQLPapers.fresh ps = true) :
    (∀ i (hi : i < ps.length), ∃ cits,
      (appendAll SQLPapers.fresh ps).getItem i =
        Except.ok ⟨(ps.get ⟨i, hi⟩).fields, cits⟩) ∧
    (∀ j, ps.length ≤ j → ∀ pt ct,
      SQLPapers.getItem ⟨pt, ct, (appendAll SQLPapers.fresh ps).rowIds⟩ j =
        Except.error GetItemError.indexError) := by
  obtain ⟨_, hlen, _, hnew⟩ := appendAll_spec ps SQLPapers.fresh fresh_WF h
  constructor
  · intro i hi
    have hx := hnew i hi
    simpa [SQLPapers.fresh] using hx
  · intro j hj pt ct
    apply getItem_out_of_range
    rw [hlen]
    simpa [SQLPapers.fresh] using hj

/-- Concrete check of `getItem_after_appends`: two appends with distinct
natural keys; the first position reads back the first record's fields. -/
theorem getItem_after_appends_witness :
    allOk SQLPapers.fresh
      [⟨{ emptyFields with doi := some sA }, none⟩,
        ⟨{ emptyFields with doi := some sB }, none⟩] = true ∧
    (∃ cits,
      (appendAll SQLPapers.fresh
        [⟨{ emptyFields with doi := some sA }, none⟩,
          ⟨{ emptyFields with doi := some sB }, none⟩]).getItem 0 =
        Except.ok ⟨{ emptyFields with doi := some sA }, cits⟩) ∧
    (∀ pt ct,
      SQLPapers.getItem ⟨pt, ct,
        (appendAll SQLPapers.fresh
          [⟨{ emptyFields with doi := some sA }, none⟩,
            ⟨{ emptyFields with doi := some sB }, none⟩]).rowIds⟩ 2 =
        Except.error GetItemError.indexError) :=
  ⟨by decide,
    (getItem_after_appends
      [⟨{ emptyFields with doi := some sA }, none⟩,
        ⟨{ emptyFields with doi := some sB }, none⟩] (by decide)).1 0
      (by decide),
    fun pt ct =>
      (getItem_after_appends
        [⟨{ emptyFields with doi := some sA }, none⟩,
          ⟨{ emptyFields with doi := some sB }, none⟩] (by decide)).2 2
        (by decide) pt ct⟩

end Tethne
